import Mathlib

/-!
Verification development for the document-rectification core of the
computer-vision project (modules `module5_document_scanner.py` and
`module4_3d_motion.py`).

Points are embedded as pairs of rationals (the Python code works on
`float32` coordinates; exact rational arithmetic embeds the intended real
arithmetic).  Stateful pipeline steps are embedded as pure functions; a
Python exception is embedded as `Option.none`.
-/

namespace DocScan

/-- A 2-D point, `(x, y)`. -/
abbrev Pt : Type := ℚ × ℚ

/-- Coordinate sum `x + y`, the key `pts.sum(axis=1)` of `_order_corners`. -/
def psum (p : Pt) : ℚ := p.1 + p.2

/-- Coordinate difference `y - x`, the key `np.diff(pts, axis=1)` of
`_order_corners` (numpy diff subtracts the first column from the second). -/
def pdiff (p : Pt) : ℚ := p.2 - p.1

/-- The element at the first index attaining the minimum of `f`, exactly as
`pts[np.argmin(...)]` selects it (`np.argmin` returns the first index of the
minimum).  The default value for the empty list is never used by callers. -/
def selMin (f : Pt → ℚ) : List Pt → Pt
  | [] => (0, 0)
  | [p] => p
  | p :: q :: rest =>
    let m := selMin f (q :: rest)
    if f p ≤ f m then p else m

/-- The element at the first index attaining the maximum of `f`, exactly as
`pts[np.argmax(...)]` selects it (`np.argmax` returns the first index of the
maximum). -/
def selMax (f : Pt → ℚ) : List Pt → Pt
  | [] => (0, 0)
  | [p] => p
  | p :: q :: rest =>
    let m := selMax f (q :: rest)
    if f m ≤ f p then p else m

/-- `_order_corners` of `module5_document_scanner.py` (identical to
`_order_points` of `module4_3d_motion.py`): `rect[0] = pts[np.argmin(s)]`,
`rect[2] = pts[np.argmax(s)]`, `rect[1] = pts[np.argmin(diff)]`,
`rect[3] = pts[np.argmax(diff)]`, returned as (TL, TR, BR, BL).
The `contour.reshape(4, 2)` at its head raises `ValueError` unless the input
holds the coordinates of exactly 4 two-dimensional points; that hard error is
embedded as `none`. -/
def _order_corners (l : List Pt) : Option (Pt × Pt × Pt × Pt) :=
  if l.length = 4 then
    some (selMin psum l, selMin pdiff l, selMax psum l, selMax pdiff l)
  else none

/-- `p` is the first-occurring point of `l` attaining the minimum of `f`:
it occurs at an index `i`, its value is a lower bound for `f` on `l`, and
every point strictly before `i` has a strictly larger value. -/
def IsFirstMin (f : Pt → ℚ) (l : List Pt) (p : Pt) : Prop :=
  ∃ i : ℕ, ∃ hi : i < l.length, p = l.get ⟨i, hi⟩ ∧
    (∀ j : ℕ, ∀ hj : j < l.length, f p ≤ f (l.get ⟨j, hj⟩)) ∧
    (∀ j : ℕ, ∀ hj : j < l.length, j < i → f p < f (l.get ⟨j, hj⟩))

/-- `p` is the first-occurring point of `l` attaining the maximum of `f`. -/
def IsFirstMax (f : Pt → ℚ) (l : List Pt) (p : Pt) : Prop :=
  ∃ i : ℕ, ∃ hi : i < l.length, p = l.get ⟨i, hi⟩ ∧
    (∀ j : ℕ, ∀ hj : j < l.length, f (l.get ⟨j, hj⟩) ≤ f p) ∧
    (∀ j : ℕ, ∀ hj : j < l.length, j < i → f (l.get ⟨j, hj⟩) < f p)

/-- The minimum of `f` over `l` is attained by a unique element. -/
def UniqueMin (f : Pt → ℚ) (l : List Pt) : Prop :=
  ∃ p ∈ l, ∀ q ∈ l, q ≠ p → f p < f q

/-- The maximum of `f` over `l` is attained by a unique element. -/
def UniqueMax (f : Pt → ℚ) (l : List Pt) : Prop :=
  ∃ p ∈ l, ∀ q ∈ l, q ≠ p → f q < f p

/-- Squared Euclidean distance between two points. -/
def sqDist (p q : Pt) : ℚ := (p.1 - q.1) ^ 2 + (p.2 - q.2) ^ 2

/-- Python's `int(sqrt(x))` on a nonnegative rational: `int(...)` truncates,
which is floor for nonnegative values, and for `0 ≤ x` the identity
`⌊sqrt x⌋ = Nat.sqrt ⌊x⌋` (proved in `intSqrt_eq_floor_sqrt` below) makes the
value computable from the squared radicand. -/
def intSqrt (x : ℚ) : ℕ := Nat.sqrt ⌊x⌋.toNat

/-- Euclidean distance `np.linalg.norm(p - q)` as a real number. -/
noncomputable def distR (p q : Pt) : ℝ := Real.sqrt ((sqDist p q : ℚ) : ℝ)

/-- Lines 153-160 of `step4_apply_perspective_transform` (the same arithmetic
as lines 116-130 of `auto_detect_and_transform`): with ordered corners
`(c0, c1, c2, c3) = (TL, TR, BR, BL)`,
`max_width  = int(max(norm(c0 - c1), norm(c2 - c3)))` and
`max_height = int(max(norm(c0 - c3), norm(c1 - c2)))`.
`int(max(sqrt a, sqrt b)) = intSqrt (max a b)` is proved below.  Note the
source applies no clamping of any kind to either value. -/
def outputSize (c0 c1 c2 c3 : Pt) : ℕ × ℕ :=
  (intSqrt (max (sqDist c0 c1) (sqDist c2 c3)),
   intSqrt (max (sqDist c0 c3) (sqDist c1 c2)))

/-- Lines 134-140 of `step3_find_document_contour`: the fallback document
quadrilateral made of the 4 image corners, `[[0,0],[w-1,0],[w-1,h-1],[0,h-1]]`. -/
def fallbackCorners (w h : ℕ) : Pt × Pt × Pt × Pt :=
  ((0, 0), ((w : ℚ) - 1, 0), ((w : ℚ) - 1, (h : ℚ) - 1), (0, (h : ℚ) - 1))

/-- Lines 110-122 of `step3_find_document_contour`, the per-candidate test:
simplify the contour with `cv2.approxPolyDP` at epsilon `0.02 *` the
contour's own perimeter (`cv2.arcLength`), and accept the simplified polygon
when it has exactly 4 vertices and its area (`cv2.contourArea`) is strictly
greater than `0.1 *` the total image area.  The external `cv2` primitives
`approxPolyDP`, `arcLength` and `contourArea` are opaque collaborators of the
repository, so they are abstracted as function parameters. -/
def acceptQuad (approxPolyDP : List Pt → ℚ → List Pt)
    (arcLength contourArea : List Pt → ℚ) (imgArea : ℚ) (c : List Pt) :
    Option (List Pt) :=
  let approx := approxPolyDP c (0.02 * arcLength c)
  if approx.length = 4 ∧ contourArea approx > imgArea * 0.1 then some approx
  else none

/-- The `for contour in contours[:10]` loop of lines 109-124: return the
first accepted simplified quadrilateral, continuing past rejected candidates,
or nothing when no candidate is accepted. -/
def findFirstQuad (approxPolyDP : List Pt → ℚ → List Pt)
    (arcLength contourArea : List Pt → ℚ) (imgArea : ℚ) :
    List (List Pt) → Option (List Pt)
  | [] => none
  | c :: rest =>
    match acceptQuad approxPolyDP arcLength contourArea imgArea c with
    | some a => some a
    | none => findFirstQuad approxPolyDP arcLength contourArea imgArea rest

/-- Line 106, `sorted(contours, key=cv2.contourArea, reverse=True)`: a stable
sort into descending area order. -/
def sortedCandidates (contourArea : List Pt → ℚ) (contours : List (List Pt)) :
    List (List Pt) :=
  contours.mergeSort fun c1 c2 => decide (contourArea c2 ≤ contourArea c1)

/-- The BoundaryCandidate Filter of lines 103-124: sort the boundary list by
descending area, examine at most the first 10 candidates, return the first
accepted simplified quadrilateral.  The image area is
`self.image.shape[0] * self.image.shape[1] = h * w`. -/
def boundaryFilter (approxPolyDP : List Pt → ℚ → List Pt)
    (arcLength contourArea : List Pt → ℚ) (w h : ℕ)
    (contours : List (List Pt)) : Option (List Pt) :=
  findFirstQuad approxPolyDP arcLength contourArea ((h : ℚ) * (w : ℚ))
    ((sortedCandidates contourArea contours).take 10)

/-- Lines 103-141, `step3_find_document_contour`, for a working image of
size `w × h` whose external boundary detection produced `contours`: find the
document contour, order its corners, and otherwise fall back to the 4 image
corners.  The returned triple is (`self.document_contour`, `self.corners`,
whether the full-image fallback was taken); the `ValueError` that
`_order_corners` would raise cannot fire here because an accepted contour
has exactly 4 vertices, so the `getD` default is never used. -/
def step3_find_document_contour (approxPolyDP : List Pt → ℚ → List Pt)
    (arcLength contourArea : List Pt → ℚ) (w h : ℕ)
    (contours : List (List Pt)) :
    Option (List Pt) × (Pt × Pt × Pt × Pt) × Bool :=
  match boundaryFilter approxPolyDP arcLength contourArea w h contours with
  | some q => (some q, (_order_corners q).getD ((0, 0), (0, 0), (0, 0), (0, 0)), false)
  | none => (none, fallbackCorners w h, true)

/-- `r` is the first-accepted selection from the candidate list `L`: when the
result is `some a`, some candidate at index `i` is accepted with value `a`
and every earlier candidate is rejected; when the result is `none`, every
candidate is rejected. -/
def SelectsFirstAccepted (accept : List Pt → Option (List Pt))
    (L : List (List Pt)) (r : Option (List Pt)) : Prop :=
  (∀ a, r = some a → ∃ i : ℕ, ∃ hi : i < L.length,
      accept (L.get ⟨i, hi⟩) = some a ∧
      ∀ j : ℕ, ∀ hj : j < L.length, j < i → accept (L.get ⟨j, hj⟩) = none) ∧
  (r = none → ∀ j : ℕ, ∀ hj : j < L.length, accept (L.get ⟨j, hj⟩) = none)

/-- Collinearity determinant of 3 points, twice the signed triangle area:
the determinant of the 3 x 3 matrix with rows (x, y, 1); it is zero exactly
when the 3 points are collinear. -/
def tdet (p q r : Pt) : ℚ :=
  (q.1 - p.1) * (r.2 - p.2) - (q.2 - p.2) * (r.1 - p.1)

/-- Modelled from the spec (section 4.4): the repository delegates homography
estimation to the external `cv2.getPerspectiveTransform` (module5 line 171,
module4 line 72) and `cv2.findHomography` (module4 line 47), whose source is
not part of this repository.  Following the spec, each of the 4 point
correspondences `(x, y) -> (u, v)` contributes the two linear equations
`h0 x + h1 y + h2 - u x h6 - u y h7 = u` and
`h3 x + h4 y + h5 - v x h6 - v y h7 = v` in the 8 unknown homography
parameters (the ninth is fixed to 1 by normalization); this is the resulting
8 x 8 system matrix. -/
def homMat (s0 s1 s2 s3 d0 d1 d2 d3 : Pt) : Matrix (Fin 8) (Fin 8) ℚ :=
  Matrix.of
    ![![s0.1, s0.2, 1, 0, 0, 0, -(d0.1 * s0.1), -(d0.1 * s0.2)],
      ![0, 0, 0, s0.1, s0.2, 1, -(d0.2 * s0.1), -(d0.2 * s0.2)],
      ![s1.1, s1.2, 1, 0, 0, 0, -(d1.1 * s1.1), -(d1.1 * s1.2)],
      ![0, 0, 0, s1.1, s1.2, 1, -(d1.2 * s1.1), -(d1.2 * s1.2)],
      ![s2.1, s2.2, 1, 0, 0, 0, -(d2.1 * s2.1), -(d2.1 * s2.2)],
      ![0, 0, 0, s2.1, s2.2, 1, -(d2.2 * s2.1), -(d2.2 * s2.2)],
      ![s3.1, s3.2, 1, 0, 0, 0, -(d3.1 * s3.1), -(d3.1 * s3.2)],
      ![0, 0, 0, s3.1, s3.2, 1, -(d3.2 * s3.1), -(d3.2 * s3.2)]]

/-- Modelled from the spec (section 4.4): the right-hand side of the system,
the destination coordinates. -/
def homRhs (d0 d1 d2 d3 : Pt) : Fin 8 → ℚ :=
  ![d0.1, d0.2, d1.1, d1.2, d2.1, d2.2, d3.1, d3.2]

/-- Modelled from the spec (section 4.4): the solution vector of the 8 x 8
system, by the explicit inverse (adjugate over determinant); meaningful only
when the determinant is nonzero. -/
def solveVec (s0 s1 s2 s3 d0 d1 d2 d3 : Pt) : Fin 8 → ℚ :=
  (homMat s0 s1 s2 s3 d0 d1 d2 d3).det⁻¹ •
    (homMat s0 s1 s2 s3 d0 d1 d2 d3).adjugate.mulVec (homRhs d0 d1 d2 d3)

/-- The 3 x 3 homography assembled from the 8 solved parameters, the
lower-right entry fixed to 1 by the normalization. -/
def homOf (s0 s1 s2 s3 d0 d1 d2 d3 : Pt) : Matrix (Fin 3) (Fin 3) ℚ :=
  Matrix.of
    ![![solveVec s0 s1 s2 s3 d0 d1 d2 d3 0, solveVec s0 s1 s2 s3 d0 d1 d2 d3 1,
        solveVec s0 s1 s2 s3 d0 d1 d2 d3 2],
      ![solveVec s0 s1 s2 s3 d0 d1 d2 d3 3, solveVec s0 s1 s2 s3 d0 d1 d2 d3 4,
        solveVec s0 s1 s2 s3 d0 d1 d2 d3 5],
      ![solveVec s0 s1 s2 s3 d0 d1 d2 d3 6, solveVec s0 s1 s2 s3 d0 d1 d2 d3 7, 1]]

/-- Modelled from the spec (sections 4.4 and 7): the Homography Solver.  It
detects a singular system by a determinant check and signals the
degenerate-geometry error (`none`) instead of returning a garbage matrix;
otherwise it solves the 8 x 8 linear system and returns the 3 x 3 matrix. -/
def getPerspectiveTransform (s0 s1 s2 s3 d0 d1 d2 d3 : Pt) :
    Option (Matrix (Fin 3) (Fin 3) ℚ) :=
  if (homMat s0 s1 s2 s3 d0 d1 d2 d3).det = 0 then none
  else some (homOf s0 s1 s2 s3 d0 d1 d2 d3)

/-- Denominator of the projective application of the homography `M` at `p`. -/
def den (M : Matrix (Fin 3) (Fin 3) ℚ) (p : Pt) : ℚ :=
  M 2 0 * p.1 + M 2 1 * p.2 + M 2 2

/-- Projective application of the homography `M` to the point `p`. -/
def papply (M : Matrix (Fin 3) (Fin 3) ℚ) (p : Pt) : Pt :=
  ((M 0 0 * p.1 + M 0 1 * p.2 + M 0 2) / den M p,
   (M 1 0 * p.1 + M 1 1 * p.2 + M 1 2) / den M p)

/-- Numerator of the first output coordinate, for the parameter vector `v`. -/
def numx (v : Fin 8 → ℚ) (p : Pt) : ℚ := v 0 * p.1 + v 1 * p.2 + v 2

/-- Numerator of the second output coordinate. -/
def numy (v : Fin 8 → ℚ) (p : Pt) : ℚ := v 3 * p.1 + v 4 * p.2 + v 5

/-- Denominator, for the parameter vector `v` (ninth parameter = 1). -/
def denv (v : Fin 8 → ℚ) (p : Pt) : ℚ := v 6 * p.1 + v 7 * p.2 + 1

/-- The two correspondence equations contributed by mapping `p` to `q`. -/
def EqsAt (v : Fin 8 → ℚ) (p q : Pt) : Prop :=
  numx v p = q.1 * denv v p ∧ numy v p = q.2 * denv v p

/-- Lines 162-171 of `step4_apply_perspective_transform` (identical to lines
63-73 of `apply_perspective_transform`): the homography from the ordered
source corners to the canonical destination rectangle corners
(0,0), (W-1,0), (W-1,H-1), (0,H-1). -/
def rectHom (s0 s1 s2 s3 : Pt) (W H : ℕ) : Matrix (Fin 3) (Fin 3) ℚ :=
  homOf s0 s1 s2 s3 (0, 0) ((W : ℚ) - 1, 0) ((W : ℚ) - 1, (H : ℚ) - 1)
    (0, (H : ℚ) - 1)

/-- Modelled from the spec (section 4.5): a raster of size `w × h` with
per-pixel data (a single channel suffices for the border-policy property). -/
structure Raster where
  w : ℕ
  h : ℕ
  data : ℤ → ℤ → ℚ

/-- Bounds-checked pixel read: inside the raster it reads `data`; an
out-of-raster index yields 0, and the resampler below gives any such read a
zero weight, so it never influences an output value. -/
def pixel (img : Raster) (x y : ℤ) : ℚ :=
  if 0 ≤ x ∧ x < (img.w : ℤ) ∧ 0 ≤ y ∧ y < (img.h : ℤ) then img.data x y else 0

/-- Modelled from the spec (section 4.5): bilinear interpolation at the
(generally non-integer) source coordinate (x, y): the weighted average of
the 4 nearest integer-coordinate pixels. -/
def bilinearSample (img : Raster) (x y : ℚ) : ℚ :=
  (1 - (x - (⌊x⌋ : ℚ))) * (1 - (y - (⌊y⌋ : ℚ))) * pixel img ⌊x⌋ ⌊y⌋ +
  (x - (⌊x⌋ : ℚ)) * (1 - (y - (⌊y⌋ : ℚ))) * pixel img (⌊x⌋ + 1) ⌊y⌋ +
  (1 - (x - (⌊x⌋ : ℚ))) * (y - (⌊y⌋ : ℚ)) * pixel img ⌊x⌋ (⌊y⌋ + 1) +
  (x - (⌊x⌋ : ℚ)) * (y - (⌊y⌋ : ℚ)) * pixel img (⌊x⌋ + 1) (⌊y⌋ + 1)

/-- Modelled from the spec (section 4.5): the per-destination-pixel inverse
mapping of the Perspective Resampler (`cv2.warpPerspective`, module5 line
174, whose source is not part of this repository).  The destination pixel
(u, v) is mapped through the inverse homography `Hinv` (computed once,
outside the pixel loop); a source coordinate that falls outside the source
raster bounds produces the fixed background value 0 (OpenCV's default
`BORDER_CONSTANT` with value 0) with no wrapping and no clamping; otherwise
the source is sampled bilinearly.  A vanishing inverse-map denominator
leaves no source coordinate and also produces the background value. -/
def warpPixel (img : Raster) (Hinv : Matrix (Fin 3) (Fin 3) ℚ) (u v : ℚ) : ℚ :=
  if Hinv 2 0 * u + Hinv 2 1 * v + Hinv 2 2 = 0 then 0
  else if 0 ≤ (Hinv 0 0 * u + Hinv 0 1 * v + Hinv 0 2) /
          (Hinv 2 0 * u + Hinv 2 1 * v + Hinv 2 2) ∧
        (Hinv 0 0 * u + Hinv 0 1 * v + Hinv 0 2) /
          (Hinv 2 0 * u + Hinv 2 1 * v + Hinv 2 2) ≤ (img.w : ℚ) - 1 ∧
        0 ≤ (Hinv 1 0 * u + Hinv 1 1 * v + Hinv 1 2) /
          (Hinv 2 0 * u + Hinv 2 1 * v + Hinv 2 2) ∧
        (Hinv 1 0 * u + Hinv 1 1 * v + Hinv 1 2) /
          (Hinv 2 0 * u + Hinv 2 1 * v + Hinv 2 2) ≤ (img.h : ℚ) - 1 then
    bilinearSample img
      ((Hinv 0 0 * u + Hinv 0 1 * v + Hinv 0 2) /
        (Hinv 2 0 * u + Hinv 2 1 * v + Hinv 2 2))
      ((Hinv 1 0 * u + Hinv 1 1 * v + Hinv 1 2) /
        (Hinv 2 0 * u + Hinv 2 1 * v + Hinv 2 2))
  else 0

end DocScan

namespace DocScan

theorem selMin_isFirstMin (f : Pt → ℚ) :
    ∀ l : List Pt, l ≠ [] → IsFirstMin f l (selMin f l)
  | [], h => absurd rfl h
  | [p], _ => by
    refine ⟨0, by simp, rfl, ?_, ?_⟩
    · intro j hj
      have hj1 : j = 0 := by simp at hj; omega
      subst hj1
      simp [selMin]
    · intro j hj hj0
      omega
  | p :: q :: rest, _ => by
    obtain ⟨i, hi, hget, hle, hlt⟩ := selMin_isFirstMin f (q :: rest) (by simp)
    by_cases hpm : f p ≤ f (selMin f (q :: rest))
    · refine ⟨0, by simp, ?_, ?_, ?_⟩
      · simp [selMin, hpm]
      · intro j hj
        have hsel : selMin f (p :: q :: rest) = p := by simp [selMin, hpm]
        rw [hsel]
        match j with
        | 0 => simp
        | j + 1 =>
          have hj' : j < (q :: rest).length := by simpa using hj
          calc f p ≤ f (selMin f (q :: rest)) := hpm
            _ ≤ f ((q :: rest).get ⟨j, hj'⟩) := hle j hj'
      · intro j hj hj0
        omega
    · push_neg at hpm
      refine ⟨i + 1, by simpa using hi, ?_, ?_, ?_⟩
      · have hsel : selMin f (p :: q :: rest) = selMin f (q :: rest) := by
          simp [selMin, not_le.mpr hpm]
        rw [hsel]
        exact hget
      · intro j hj
        have hsel : selMin f (p :: q :: rest) = selMin f (q :: rest) := by
          simp [selMin, not_le.mpr hpm]
        rw [hsel]
        match j with
        | 0 => exact le_of_lt hpm
        | j + 1 =>
          have hj' : j < (q :: rest).length := by simpa using hj
          exact hle j hj'
      · intro j hj hj0
        have hsel : selMin f (p :: q :: rest) = selMin f (q :: rest) := by
          simp [selMin, not_le.mpr hpm]
        rw [hsel]
        match j with
        | 0 => exact hpm
        | j + 1 =>
          have hj' : j < (q :: rest).length := by simpa using hj
          exact hlt j hj' (by omega)

theorem selMax_isFirstMax (f : Pt → ℚ) :
    ∀ l : List Pt, l ≠ [] → IsFirstMax f l (selMax f l)
  | [], h => absurd rfl h
  | [p], _ => by
    refine ⟨0, by simp, rfl, ?_, ?_⟩
    · intro j hj
      have hj1 : j = 0 := by simp at hj; omega
      subst hj1
      simp [selMax]
    · intro j hj hj0
      omega
  | p :: q :: rest, _ => by
    obtain ⟨i, hi, hget, hle, hlt⟩ := selMax_isFirstMax f (q :: rest) (by simp)
    by_cases hpm : f (selMax f (q :: rest)) ≤ f p
    · refine ⟨0, by simp, ?_, ?_, ?_⟩
      · simp [selMax, hpm]
      · intro j hj
        have hsel : selMax f (p :: q :: rest) = p := by simp [selMax, hpm]
        rw [hsel]
        match j with
        | 0 => simp
        | j + 1 =>
          have hj' : j < (q :: rest).length := by simpa using hj
          calc f ((q :: rest).get ⟨j, hj'⟩) ≤ f (selMax f (q :: rest)) := hle j hj'
            _ ≤ f p := hpm
      · intro j hj hj0
        omega
    · push_neg at hpm
      refine ⟨i + 1, by simpa using hi, ?_, ?_, ?_⟩
      · have hsel : selMax f (p :: q :: rest) = selMax f (q :: rest) := by
          simp [selMax, not_le.mpr hpm]
        rw [hsel]
        exact hget
      · intro j hj
        have hsel : selMax f (p :: q :: rest) = selMax f (q :: rest) := by
          simp [selMax, not_le.mpr hpm]
        rw [hsel]
        match j with
        | 0 => exact le_of_lt hpm
        | j + 1 =>
          have hj' : j < (q :: rest).length := by simpa using hj
          exact hle j hj'
      · intro j hj hj0
        have hsel : selMax f (p :: q :: rest) = selMax f (q :: rest) := by
          simp [selMax, not_le.mpr hpm]
        rw [hsel]
        match j with
        | 0 => exact hpm
        | j + 1 =>
          have hj' : j < (q :: rest).length := by simpa using hj
          exact hlt j hj' (by omega)

theorem selMin_mem (f : Pt → ℚ) (l : List Pt) (h : l ≠ []) : selMin f l ∈ l := by
  obtain ⟨i, hi, hget, -, -⟩ := selMin_isFirstMin f l h
  rw [hget]
  exact List.get_mem l i hi

theorem selMax_mem (f : Pt → ℚ) (l : List Pt) (h : l ≠ []) : selMax f l ∈ l := by
  obtain ⟨i, hi, hget, -, -⟩ := selMax_isFirstMax f l h
  rw [hget]
  exact List.get_mem l i hi

theorem selMin_le (f : Pt → ℚ) (l : List Pt) (h : l ≠ []) :
    ∀ q ∈ l, f (selMin f l) ≤ f q := by
  obtain ⟨i, hi, hget, hle, -⟩ := selMin_isFirstMin f l h
  intro q hq
  obtain ⟨⟨j, hj⟩, rfl⟩ := List.mem_iff_get.mp hq
  exact hle j hj

theorem le_selMax (f : Pt → ℚ) (l : List Pt) (h : l ≠ []) :
    ∀ q ∈ l, f q ≤ f (selMax f l) := by
  obtain ⟨i, hi, hget, hle, -⟩ := selMax_isFirstMax f l h
  intro q hq
  obtain ⟨⟨j, hj⟩, rfl⟩ := List.mem_iff_get.mp hq
  exact hle j hj

theorem selMin_eq_of_uniqueMin (f : Pt → ℚ) (l : List Pt) (h : l ≠ [])
    (p : Pt) (hp : p ∈ l) (hu : ∀ q ∈ l, q ≠ p → f p < f q) : selMin f l = p := by
  by_contra hne
  have h1 : f p < f (selMin f l) := hu _ (selMin_mem f l h) hne
  have h2 : f (selMin f l) ≤ f p := selMin_le f l h p hp
  linarith

theorem selMax_eq_of_uniqueMax (f : Pt → ℚ) (l : List Pt) (h : l ≠ [])
    (p : Pt) (hp : p ∈ l) (hu : ∀ q ∈ l, q ≠ p → f q < f p) : selMax f l = p := by
  by_contra hne
  have h1 : f (selMax f l) < f p := hu _ (selMax_mem f l h) hne
  have h2 : f p ≤ f (selMax f l) := le_selMax f l h p hp
  linarith

theorem sqDist_nonneg (p q : Pt) : 0 ≤ sqDist p q := by
  unfold sqDist
  positivity

theorem intSqrt_eq_floor_sqrt (q : ℚ) (hq : 0 ≤ q) :
    (intSqrt q : ℤ) = ⌊Real.sqrt ((q : ℝ))⌋ := by
  have hqR : (0 : ℝ) ≤ (q : ℝ) := by exact_mod_cast hq
  have hfl : (0 : ℤ) ≤ ⌊q⌋ := Int.floor_nonneg.mpr hq
  have htn : ((⌊q⌋.toNat : ℤ)) = ⌊q⌋ := Int.toNat_of_nonneg hfl
  have hcastfl : (⌊(q : ℝ)⌋ : ℤ) = ⌊q⌋ := Rat.floor_cast q
  set n : ℕ := Nat.sqrt ⌊q⌋.toNat with hn
  symm
  rw [Int.floor_eq_iff]
  constructor
  · have h1 : n * n ≤ ⌊q⌋.toNat := Nat.sqrt_le _
    have h2 : ((n : ℝ)) ^ 2 ≤ (q : ℝ) := by
      have h3 : ((⌊q⌋ : ℤ) : ℝ) ≤ (q : ℝ) := by
        rw [← hcastfl]
        exact Int.floor_le _
      have h4 : ((n * n : ℕ) : ℝ) ≤ ((⌊q⌋.toNat : ℕ) : ℝ) := by exact_mod_cast h1
      have h5 : ((⌊q⌋.toNat : ℕ) : ℝ) = ((⌊q⌋ : ℤ) : ℝ) := by exact_mod_cast htn
      calc ((n : ℝ)) ^ 2 = ((n * n : ℕ) : ℝ) := by push_cast; ring
        _ ≤ ((⌊q⌋ : ℤ) : ℝ) := h5 ▸ h4
        _ ≤ (q : ℝ) := h3
    have h6 : ((n : ℝ)) ≤ Real.sqrt (q : ℝ) :=
      (Real.le_sqrt (by positivity) hqR).mpr h2
    exact_mod_cast h6
  · have h1 : ⌊q⌋.toNat < (n + 1) * (n + 1) := Nat.lt_succ_sqrt _
    have h2 : (q : ℝ) < ((n : ℝ) + 1) ^ 2 := by
      have h3 : (q : ℝ) < ((⌊q⌋ : ℤ) : ℝ) + 1 := by
        rw [← hcastfl]
        exact Int.lt_floor_add_one _
      have h4 : ((⌊q⌋ : ℤ) : ℝ) + 1 ≤ (((n + 1) * (n + 1) : ℕ) : ℝ) := by
        have : (⌊q⌋ : ℤ) + 1 ≤ (((n + 1) * (n + 1) : ℕ) : ℤ) := by
          rw [← htn]
          exact_mod_cast h1
        exact_mod_cast this
      calc (q : ℝ) < ((⌊q⌋ : ℤ) : ℝ) + 1 := h3
        _ ≤ (((n + 1) * (n + 1) : ℕ) : ℝ) := h4
        _ = ((n : ℝ) + 1) ^ 2 := by push_cast; ring
    have h5 : Real.sqrt (q : ℝ) < (n : ℝ) + 1 :=
      (Real.sqrt_lt' (by positivity)).mpr h2
    calc Real.sqrt (q : ℝ) < (n : ℝ) + 1 := h5
      _ = ((n : ℤ) : ℝ) + 1 := by push_cast; ring

theorem floor_max_sqrt (a b : ℚ) (ha : 0 ≤ a) (hb : 0 ≤ b) :
    ⌊max (Real.sqrt (a : ℝ)) (Real.sqrt (b : ℝ))⌋ = (intSqrt (max a b) : ℤ) := by
  rcases le_total a b with hab | hab
  · have h1 : Real.sqrt (a : ℝ) ≤ Real.sqrt (b : ℝ) :=
      Real.sqrt_le_sqrt (by exact_mod_cast hab)
    rw [max_eq_right h1, max_eq_right hab, intSqrt_eq_floor_sqrt b hb]
  · have h1 : Real.sqrt (b : ℝ) ≤ Real.sqrt (a : ℝ) :=
      Real.sqrt_le_sqrt (by exact_mod_cast hab)
    rw [max_eq_left h1, max_eq_left hab, intSqrt_eq_floor_sqrt a ha]

theorem order_corners_eq (l : List Pt) (h : l.length = 4) :
    _order_corners l =
      some (selMin psum l, selMin pdiff l, selMax psum l, selMax pdiff l) := by
  simp [_order_corners, h]

theorem order_corners_length (l : List Pt) (a b c d : Pt)
    (h : _order_corners l = some (a, b, c, d)) : l.length = 4 := by
  by_contra hlen
  simp [_order_corners, hlen] at h

/-- C3: for an input of exactly 4 points, `_order_corners` returns
(TL, TR, BR, BL) where TL is the point with minimum x+y, BR the point with
maximum x+y, TR the point with minimum y-x, BL the point with maximum y-x,
and when two points share an extremal value the first-occurring point is
chosen (as `np.argmin` / `np.argmax` do). -/
theorem C3_order_corners_extremal (l : List Pt) (a b c d : Pt)
    (h : _order_corners l = some (a, b, c, d)) :
    IsFirstMin psum l a ∧ IsFirstMin pdiff l b ∧
    IsFirstMax psum l c ∧ IsFirstMax pdiff l d := by
  have hlen : l.length = 4 := order_corners_length l a b c d h
  have hne : l ≠ [] := by
    intro he
    rw [he] at hlen
    simp at hlen
  rw [order_corners_eq l hlen] at h
  obtain ⟨ha, hb, hc, hd⟩ :
      selMin psum l = a ∧ selMin pdiff l = b ∧
      selMax psum l = c ∧ selMax pdiff l = d := by
    simpa [Prod.ext_iff] using Option.some.inj h
  exact ⟨ha ▸ selMin_isFirstMin psum l hne, hb ▸ selMin_isFirstMin pdiff l hne,
    hc ▸ selMax_isFirstMax psum l hne, hd ▸ selMax_isFirstMax pdiff l hne⟩

theorem C3_order_corners_extremal_witness :
    _order_corners [((0:ℚ), (0:ℚ)), (4, 1), (5, 5), (1, 4)] =
      some ((0, 0), (4, 1), (5, 5), (1, 4)) ∧
    (IsFirstMin psum [((0:ℚ), (0:ℚ)), (4, 1), (5, 5), (1, 4)] (0, 0) ∧
     IsFirstMin pdiff [((0:ℚ), (0:ℚ)), (4, 1), (5, 5), (1, 4)] (4, 1) ∧
     IsFirstMax psum [((0:ℚ), (0:ℚ)), (4, 1), (5, 5), (1, 4)] (5, 5) ∧
     IsFirstMax pdiff [((0:ℚ), (0:ℚ)), (4, 1), (5, 5), (1, 4)] (1, 4)) := by
  have heval : _order_corners [((0:ℚ), (0:ℚ)), (4, 1), (5, 5), (1, 4)] =
      some ((0, 0), (4, 1), (5, 5), (1, 4)) := by
    norm_num [_order_corners, selMin, selMax, psum, pdiff]
  exact ⟨heval, C3_order_corners_extremal _ _ _ _ _ heval⟩

/-- C7: calling the corner orderer with a point list whose total coordinate
count is not that of exactly 4 two-dimensional points hits the
`contour.reshape(4, 2)` `ValueError`, a hard error surfaced to the caller
(embedded as `none`): no ordering is returned. -/
theorem C7_order_corners_bad_arity (l : List Pt) (h : l.length ≠ 4) :
    _order_corners l = none := by
  simp [_order_corners, h]

theorem C7_order_corners_bad_arity_witness :
    _order_corners [((1:ℚ), (2:ℚ)), (3, 4), (5, 6)] = none :=
  C7_order_corners_bad_arity _ (by norm_num)

/-- C10: the orderer's output is not always a permutation of its input: on
the 4 pairwise-distinct points [(0,0),(1,3),(2,3),(0,2)] the point (0,0)
attains both the minimum sum and the minimum difference, so it appears twice
in the output (as TL and as TR) while the input point (0,2) is absent. -/
theorem C10_order_corners_not_permutation :
    _order_corners [((0:ℚ), (0:ℚ)), (1, 3), (2, 3), (0, 2)] =
      some ((0, 0), (0, 0), (2, 3), (1, 3)) ∧
    List.Pairwise (fun p q : Pt => p ≠ q)
      [((0:ℚ), (0:ℚ)), (1, 3), (2, 3), (0, 2)] ∧
    ((0:ℚ), (2:ℚ)) ∉ [((0:ℚ), (0:ℚ)), ((0:ℚ), (0:ℚ)), ((2:ℚ), (3:ℚ)), ((1:ℚ), (3:ℚ))] := by
  refine ⟨by norm_num [_order_corners, selMin, selMax, psum, pdiff], ?_, ?_⟩
  · norm_num [List.pairwise_cons, Prod.ext_iff]
    constructor
    · rintro a b (⟨rfl, rfl⟩ | ⟨rfl, rfl⟩ | ⟨rfl, rfl⟩) h <;> norm_num at h ⊢
    · rintro a b (⟨rfl, rfl⟩ | ⟨rfl, rfl⟩) h <;> norm_num at h ⊢
  · norm_num [Prod.ext_iff]

/-- C8 fails as stated: on the 4-point input [(0,0),(1,3),(3,1),(0,3)] the
orderer returns ((0,0),(3,1),(1,3),(0,3)), but re-applying the orderer to
that output returns ((0,0),(3,1),(3,1),(0,3)) — the sum tie between (1,3)
and (3,1) is re-resolved by first occurrence in the new order, changing BR. -/
theorem C8_order_corners_idempotent_cex :
    _order_corners [((0:ℚ), (0:ℚ)), (1, 3), (3, 1), (0, 3)] =
      some ((0, 0), (3, 1), (1, 3), (0, 3)) ∧
    _order_corners [((0:ℚ), (0:ℚ)), (3, 1), (1, 3), (0, 3)] =
      some ((0, 0), (3, 1), (3, 1), (0, 3)) ∧
    (((0:ℚ), (0:ℚ)), ((3:ℚ), (1:ℚ)), ((3:ℚ), (1:ℚ)), ((0:ℚ), (3:ℚ))) ≠
      (((0:ℚ), (0:ℚ)), ((3:ℚ), (1:ℚ)), ((1:ℚ), (3:ℚ)), ((0:ℚ), (3:ℚ))) := by
  refine ⟨by norm_num [_order_corners, selMin, selMax, psum, pdiff],
    by norm_num [_order_corners, selMin, selMax, psum, pdiff], ?_⟩
  norm_num [Prod.ext_iff]

/-- C8 (amended): the orderer is idempotent on every 4-point input in which
each extremal role (minimum sum, maximum sum, minimum difference, maximum
difference) is attained by a unique point: re-applying the orderer to the
output returns the output unchanged.  (The unrestricted claim fails when an
extremal value is tied, see the counterexample.) -/
theorem C8_order_corners_idempotent (l : List Pt) (a b c d : Pt)
    (hminS : UniqueMin psum l) (hmaxS : UniqueMax psum l)
    (hminD : UniqueMin pdiff l) (hmaxD : UniqueMax pdiff l)
    (h : _order_corners l = some (a, b, c, d)) :
    _order_corners [a, b, c, d] = some (a, b, c, d) := by
  have hlen : l.length = 4 := order_corners_length l a b c d h
  have hne : l ≠ [] := by
    intro he
    rw [he] at hlen
    simp at hlen
  rw [order_corners_eq l hlen] at h
  obtain ⟨ha, hb, hc, hd⟩ :
      selMin psum l = a ∧ selMin pdiff l = b ∧
      selMax psum l = c ∧ selMax pdiff l = d := by
    simpa [Prod.ext_iff] using Option.some.inj h
  have hma : a ∈ l := ha ▸ selMin_mem psum l hne
  have hmb : b ∈ l := hb ▸ selMin_mem pdiff l hne
  have hmc : c ∈ l := hc ▸ selMax_mem psum l hne
  have hmd : d ∈ l := hd ▸ selMax_mem pdiff l hne
  obtain ⟨pa, hpa, hua⟩ := hminS
  obtain ⟨pb, hpb, hub⟩ := hminD
  obtain ⟨pc, hpc, huc⟩ := hmaxS
  obtain ⟨pd, hpd, hud⟩ := hmaxD
  have ha' : a = pa := by rw [← ha]; exact selMin_eq_of_uniqueMin psum l hne pa hpa hua
  have hb' : b = pb := by rw [← hb]; exact selMin_eq_of_uniqueMin pdiff l hne pb hpb hub
  have hc' : c = pc := by rw [← hc]; exact selMax_eq_of_uniqueMax psum l hne pc hpc huc
  have hd' : d = pd := by rw [← hd]; exact selMax_eq_of_uniqueMax pdiff l hne pd hpd hud
  have hsub : ∀ x ∈ [a, b, c, d], x ∈ l := by
    intro x hx
    rcases (by simpa using hx : x = a ∨ x = b ∨ x = c ∨ x = d) with rfl | rfl | rfl | rfl
      <;> assumption
  have hLne : ([a, b, c, d] : List Pt) ≠ [] := by simp
  have hs1 : selMin psum [a, b, c, d] = a := by
    apply selMin_eq_of_uniqueMin psum _ hLne a (by simp)
    intro q hq hqa
    rw [ha']
    exact hua q (hsub q hq) (ha' ▸ hqa)
  have hs2 : selMin pdiff [a, b, c, d] = b := by
    apply selMin_eq_of_uniqueMin pdiff _ hLne b (by simp)
    intro q hq hqb
    rw [hb']
    exact hub q (hsub q hq) (hb' ▸ hqb)
  have hs3 : selMax psum [a, b, c, d] = c := by
    apply selMax_eq_of_uniqueMax psum _ hLne c (by simp)
    intro q hq hqc
    rw [hc']
    exact huc q (hsub q hq) (hc' ▸ hqc)
  have hs4 : selMax pdiff [a, b, c, d] = d := by
    apply selMax_eq_of_uniqueMax pdiff _ hLne d (by simp)
    intro q hq hqd
    rw [hd']
    exact hud q (hsub q hq) (hd' ▸ hqd)
  rw [order_corners_eq [a, b, c, d] (by simp), hs1, hs2, hs3, hs4]

theorem C8_order_corners_idempotent_witness :
    _order_corners [((0:ℚ), (0:ℚ)), (5, 1), (6, 7), (1, 4)] =
      some ((0, 0), (5, 1), (6, 7), (1, 4)) := by
  have heval : _order_corners [((1:ℚ), (4:ℚ)), (0, 0), (5, 1), (6, 7)] =
      some ((0, 0), (5, 1), (6, 7), (1, 4)) := by
    norm_num [_order_corners, selMin, selMax, psum, pdiff]
  refine C8_order_corners_idempotent _ _ _ _ _ ?_ ?_ ?_ ?_ heval
  · refine ⟨(0, 0), by norm_num, ?_⟩
    intro q hq hqne
    fin_cases hq <;> simp_all [psum, Prod.ext_iff] <;> norm_num
  · refine ⟨(6, 7), by norm_num, ?_⟩
    intro q hq hqne
    fin_cases hq <;> simp_all [psum, Prod.ext_iff] <;> norm_num
  · refine ⟨(5, 1), by norm_num, ?_⟩
    intro q hq hqne
    fin_cases hq <;> simp_all [pdiff, Prod.ext_iff] <;> norm_num
  · refine ⟨(1, 4), by norm_num, ?_⟩
    intro q hq hqne
    fin_cases hq <;> simp_all [pdiff, Prod.ext_iff] <;> norm_num

/-- C2 (amended): for every ordered quadrilateral (TL, TR, BR, BL) = (c0,
c1, c2, c3) the dimension estimator returns
width = ⌊max(dist(TL,TR), dist(BR,BL))⌋ and
height = ⌊max(dist(TL,BL), dist(TR,BR))⌋ with true Euclidean distances; no
clamping to a minimum of 1 is applied (see the counterexample), so the
output size can be zero in a dimension for degenerate input. -/
theorem C2_dimension_estimator (c0 c1 c2 c3 : Pt) :
    ((outputSize c0 c1 c2 c3).1 : ℤ) = ⌊max (distR c0 c1) (distR c2 c3)⌋ ∧
    ((outputSize c0 c1 c2 c3).2 : ℤ) = ⌊max (distR c0 c3) (distR c1 c2)⌋ := by
  constructor
  · show ((intSqrt (max (sqDist c0 c1) (sqDist c2 c3)) : ℕ) : ℤ) = _
    rw [distR, distR]
    exact (floor_max_sqrt _ _ (sqDist_nonneg c0 c1) (sqDist_nonneg c2 c3)).symm
  · show ((intSqrt (max (sqDist c0 c3) (sqDist c1 c2)) : ℕ) : ℤ) = _
    rw [distR, distR]
    exact (floor_max_sqrt _ _ (sqDist_nonneg c0 c3) (sqDist_nonneg c1 c2)).symm

/-- C2 counterexample: on the degenerate quadrilateral whose 4 corners all
equal (0,0) the estimator returns width 0 and height 0 — the claimed
clamping to a minimum of 1 does not exist in the code (`int(max(...))` is
returned unmodified). -/
theorem C2_dimension_estimator_cex :
    outputSize ((0:ℚ), (0:ℚ)) (0, 0) (0, 0) (0, 0) = (0, 0) ∧
    ¬(1 ≤ (outputSize ((0:ℚ), (0:ℚ)) (0, 0) (0, 0) (0, 0)).1 ∧
      1 ≤ (outputSize ((0:ℚ), (0:ℚ)) (0, 0) (0, 0) (0, 0)).2) := by
  have h : outputSize ((0:ℚ), (0:ℚ)) (0, 0) (0, 0) (0, 0) = (0, 0) := by
    norm_num [outputSize, sqDist, intSqrt]
  refine ⟨h, ?_⟩
  rw [h]
  norm_num

theorem intSqrt_natCast_sq (n : ℕ) : intSqrt (((n : ℚ)) ^ 2) = n := by
  have h1 : (((n : ℚ)) ^ 2) = ((n ^ 2 : ℕ) : ℚ) := by push_cast; ring
  have h2 : ⌊((n ^ 2 : ℕ) : ℚ)⌋ = ((n ^ 2 : ℕ) : ℤ) := Int.floor_natCast _
  rw [intSqrt, h1, h2, Int.toNat_ofNat]
  exact Nat.sqrt_eq' n

theorem findFirstQuad_spec (approxPolyDP : List Pt → ℚ → List Pt)
    (arcLength contourArea : List Pt → ℚ) (imgArea : ℚ) :
    ∀ L : List (List Pt),
      SelectsFirstAccepted (acceptQuad approxPolyDP arcLength contourArea imgArea) L
        (findFirstQuad approxPolyDP arcLength contourArea imgArea L)
  | [] => by
    constructor
    · intro a ha
      simp [findFirstQuad] at ha
    · intro _ j hj
      simp at hj
  | c :: rest => by
    obtain ⟨ih1, ih2⟩ := findFirstQuad_spec approxPolyDP arcLength contourArea imgArea rest
    rcases hacc : acceptQuad approxPolyDP arcLength contourArea imgArea c with _ | a
    · have hstep : findFirstQuad approxPolyDP arcLength contourArea imgArea (c :: rest) =
          findFirstQuad approxPolyDP arcLength contourArea imgArea rest := by
        simp [findFirstQuad, hacc]
      constructor
      · intro a ha
        rw [hstep] at ha
        obtain ⟨i, hi, hia, hprev⟩ := ih1 a ha
        refine ⟨i + 1, by simpa using hi, by simpa using hia, ?_⟩
        intro j hj hji
        match j with
        | 0 => simpa using hacc
        | j + 1 =>
          have hj' : j < rest.length := by simpa using hj
          simpa using hprev j hj' (by omega)
      · intro hnone j hj
        rw [hstep] at hnone
        match j with
        | 0 => simpa using hacc
        | j + 1 =>
          have hj' : j < rest.length := by simpa using hj
          simpa using ih2 hnone j hj'
    · have hstep : findFirstQuad approxPolyDP arcLength contourArea imgArea (c :: rest) =
          some a := by
        simp [findFirstQuad, hacc]
      constructor
      · intro a' ha'
        rw [hstep] at ha'
        have haa : a = a' := Option.some.inj ha'
        subst haa
        refine ⟨0, by simp, by simpa using hacc, ?_⟩
        intro j hj hji
        omega
      · intro hnone
        rw [hstep] at hnone
        simp at hnone

/-- C6: the BoundaryCandidate Filter sorts the boundary list into descending
area order (a stable permutation of its input), examines at most the first
10 candidates, and returns the first whose 2%-of-own-perimeter
simplification has exactly 4 vertices and area strictly greater than 10% of
the total image area (the `acceptQuad` test); when no candidate qualifies it
returns not-found.  It is a pure function of its inputs, so it has no side
effects on them. -/
theorem C6_boundary_filter (approxPolyDP : List Pt → ℚ → List Pt)
    (arcLength contourArea : List Pt → ℚ) (w h : ℕ)
    (contours : List (List Pt)) :
    (sortedCandidates contourArea contours).Perm contours ∧
    (sortedCandidates contourArea contours).Pairwise
      (fun c1 c2 => contourArea c2 ≤ contourArea c1) ∧
    ((sortedCandidates contourArea contours).take 10).length ≤ 10 ∧
    SelectsFirstAccepted
      (acceptQuad approxPolyDP arcLength contourArea ((h : ℚ) * (w : ℚ)))
      ((sortedCandidates contourArea contours).take 10)
      (boundaryFilter approxPolyDP arcLength contourArea w h contours) := by
  refine ⟨List.mergeSort_perm contours _, ?_, ?_, ?_⟩
  · have hs : (sortedCandidates contourArea contours).Pairwise
        (fun c1 c2 => decide (contourArea c2 ≤ contourArea c1) = true) := by
      apply List.sorted_mergeSort
      · intro a b c hab hbc
        simp only [decide_eq_true_eq] at hab hbc ⊢
        exact le_trans hbc hab
      · intro a b
        simp only [Bool.or_eq_true, decide_eq_true_eq]
        exact le_total _ _
    exact hs.imp fun hab => of_decide_eq_true hab
  · rw [List.length_take]
    exact min_le_left _ _
  · exact findFirstQuad_spec approxPolyDP arcLength contourArea _ _

/-- C1 (amended): with an empty boundary list the pipeline raises no error:
step 3 returns the 4 image corners (0,0),(w-1,0),(w-1,h-1),(0,h-1) as the
document quadrilateral with the fallback recorded, and the step-4 output
raster measures (w-1) × (h-1) — one pixel short of the working image size in
each dimension (the original claim said the full w × h; see the
counterexample). -/
theorem C1_empty_boundary_fallback (approxPolyDP : List Pt → ℚ → List Pt)
    (arcLength contourArea : List Pt → ℚ) (w h : ℕ) (hw : 1 ≤ w) (hh : 1 ≤ h) :
    step3_find_document_contour approxPolyDP arcLength contourArea w h [] =
      (none, fallbackCorners w h, true) ∧
    outputSize (0, 0) ((w : ℚ) - 1, 0) ((w : ℚ) - 1, (h : ℚ) - 1) (0, (h : ℚ) - 1) =
      (w - 1, h - 1) := by
  constructor
  · simp [step3_find_document_contour, boundaryFilter, sortedCandidates, findFirstQuad]
  · have hcw : ((w - 1 : ℕ) : ℚ) = (w : ℚ) - 1 := by
      rw [Nat.cast_sub hw, Nat.cast_one]
    have hch : ((h - 1 : ℕ) : ℚ) = (h : ℚ) - 1 := by
      rw [Nat.cast_sub hh, Nat.cast_one]
    rw [← hcw, ← hch]
    have e1 : sqDist (0, 0) (((w - 1 : ℕ) : ℚ), 0) = (((w - 1 : ℕ) : ℚ)) ^ 2 := by
      simp [sqDist]
    have e2 : sqDist (((w - 1 : ℕ) : ℚ), ((h - 1 : ℕ) : ℚ)) (0, ((h - 1 : ℕ) : ℚ)) =
        (((w - 1 : ℕ) : ℚ)) ^ 2 := by
      simp [sqDist]
    have e3 : sqDist (0, 0) (0, ((h - 1 : ℕ) : ℚ)) = (((h - 1 : ℕ) : ℚ)) ^ 2 := by
      simp [sqDist]
    have e4 : sqDist (((w - 1 : ℕ) : ℚ), 0) (((w - 1 : ℕ) : ℚ), ((h - 1 : ℕ) : ℚ)) =
        (((h - 1 : ℕ) : ℚ)) ^ 2 := by
      simp [sqDist]
    rw [outputSize, e1, e2, e3, e4, max_self, max_self,
      intSqrt_natCast_sq, intSqrt_natCast_sq]

theorem C1_empty_boundary_fallback_witness :
    step3_find_document_contour (fun c _ => c) (fun _ => 0) (fun _ => 0) 5 4 [] =
      (none, fallbackCorners 5 4, true) ∧
    outputSize (0, 0) (((5 : ℕ) : ℚ) - 1, 0) (((5 : ℕ) : ℚ) - 1, ((4 : ℕ) : ℚ) - 1)
      (0, ((4 : ℕ) : ℚ) - 1) = (4, 3) :=
  C1_empty_boundary_fallback (fun c _ => c) (fun _ => 0) (fun _ => 0) 5 4
    (by norm_num) (by norm_num)

/-- C1 fails as stated on the raster-size clause: at working-image size
10 × 8 with an empty boundary list, the fallback quadrilateral is the 4
image corners and no error is raised, but the step-4 raster measures
9 × 7 = (w-1) × (h-1), not the full 10 × 8, because the corner-to-corner
edge lengths are w-1 and h-1. -/
theorem C1_empty_boundary_fallback_cex :
    step3_find_document_contour (fun c _ => c) (fun _ => 0) (fun _ => 0) 10 8 [] =
      (none, fallbackCorners 10 8, true) ∧
    fallbackCorners 10 8 = ((0, 0), (9, 0), (9, 7), (0, 7)) ∧
    outputSize (0, 0) (9, 0) (9, 7) (0, 7) = (9, 7) ∧
    ((9, 7) : ℕ × ℕ) ≠ (10, 8) := by
  refine ⟨?_, ?_, ?_, by norm_num⟩
  · simp [step3_find_document_contour, boundaryFilter, sortedCandidates, findFirstQuad]
  · norm_num [fallbackCorners]
  · have e9 : ((9 : ℚ)) = (((9 : ℕ) : ℚ)) := by norm_num
    have e7 : ((7 : ℚ)) = (((7 : ℕ) : ℚ)) := by norm_num
    have e1 : sqDist (0, 0) (9, 0) = ((9 : ℚ)) ^ 2 := by simp [sqDist]
    have e2 : sqDist (9, 7) (0, 7) = ((9 : ℚ)) ^ 2 := by simp [sqDist]
    have e3 : sqDist (0, 0) (0, 7) = ((7 : ℚ)) ^ 2 := by simp [sqDist]
    have e4 : sqDist (9, 0) (9, 7) = ((7 : ℚ)) ^ 2 := by simp [sqDist]
    rw [outputSize, e1, e2, e3, e4, max_self, max_self, e9, e7,
      intSqrt_natCast_sq, intSqrt_natCast_sq]

theorem vec8_zero {α : Type*} (a b c d e f g h : α) :
    (![a, b, c, d, e, f, g, h] : Fin 8 → α) 0 = a := rfl

theorem vec8_one {α : Type*} (a b c d e f g h : α) :
    (![a, b, c, d, e, f, g, h] : Fin 8 → α) 1 = b := rfl

theorem vec8_two {α : Type*} (a b c d e f g h : α) :
    (![a, b, c, d, e, f, g, h] : Fin 8 → α) 2 = c := rfl

theorem vec8_three {α : Type*} (a b c d e f g h : α) :
    (![a, b, c, d, e, f, g, h] : Fin 8 → α) 3 = d := rfl

theorem vec8_four {α : Type*} (a b c d e f g h : α) :
    (![a, b, c, d, e, f, g, h] : Fin 8 → α) 4 = e := rfl

theorem vec8_five {α : Type*} (a b c d e f g h : α) :
    (![a, b, c, d, e, f, g, h] : Fin 8 → α) 5 = f := rfl

theorem vec8_six {α : Type*} (a b c d e f g h : α) :
    (![a, b, c, d, e, f, g, h] : Fin 8 → α) 6 = g := rfl

theorem vec8_seven {α : Type*} (a b c d e f g h : α) :
    (![a, b, c, d, e, f, g, h] : Fin 8 → α) 7 = h := rfl

theorem homMat_mulVec_eq (s0 s1 s2 s3 d0 d1 d2 d3 : Pt) (v : Fin 8 → ℚ)
    (h : (homMat s0 s1 s2 s3 d0 d1 d2 d3).mulVec v = homRhs d0 d1 d2 d3) :
    EqsAt v s0 d0 ∧ EqsAt v s1 d1 ∧ EqsAt v s2 d2 ∧ EqsAt v s3 d3 := by
  have h0 := congrFun h 0
  have h1 := congrFun h 1
  have h2 := congrFun h 2
  have h3 := congrFun h 3
  have h4 := congrFun h 4
  have h5 := congrFun h 5
  have h6 := congrFun h 6
  have h7 := congrFun h 7
  simp only [homMat, homRhs, Matrix.mulVec, Matrix.dotProduct, Fin.sum_univ_eight,
    Matrix.of_apply, vec8_zero, vec8_one, vec8_two, vec8_three, vec8_four,
    vec8_five, vec8_six, vec8_seven] at h0 h1 h2 h3 h4 h5 h6 h7
  refine ⟨⟨?_, ?_⟩, ⟨?_, ?_⟩, ⟨?_, ?_⟩, ⟨?_, ?_⟩⟩ <;> simp only [numx, numy, denv]
  · linear_combination h0
  · linear_combination h1
  · linear_combination h2
  · linear_combination h3
  · linear_combination h4
  · linear_combination h5
  · linear_combination h6
  · linear_combination h7

theorem homMat_mulVec_solveVec (s0 s1 s2 s3 d0 d1 d2 d3 : Pt)
    (hdet : (homMat s0 s1 s2 s3 d0 d1 d2 d3).det ≠ 0) :
    (homMat s0 s1 s2 s3 d0 d1 d2 d3).mulVec (solveVec s0 s1 s2 s3 d0 d1 d2 d3) =
      homRhs d0 d1 d2 d3 := by
  rw [solveVec, Matrix.mulVec_smul, Matrix.mulVec_mulVec, Matrix.mul_adjugate,
    Matrix.smul_mulVec_assoc, Matrix.one_mulVec, smul_smul,
    inv_mul_cancel₀ hdet, one_smul]

theorem tdet_swap12 (p q r : Pt) : tdet q p r = -tdet p q r := by
  unfold tdet
  ring

theorem tdet_swap23 (p q r : Pt) : tdet p r q = -tdet p q r := by
  unfold tdet
  ring

theorem tdet_rot (p q r : Pt) : tdet q r p = tdet p q r := by
  unfold tdet
  ring

theorem affine_decomp (pa pb pc pd : Pt) (hT : tdet pa pb pc ≠ 0) :
    ∃ α β γ : ℚ, α + β + γ = 1 ∧
      α * pa.1 + β * pb.1 + γ * pc.1 = pd.1 ∧
      α * pa.2 + β * pb.2 + γ * pc.2 = pd.2 := by
  refine ⟨tdet pd pb pc / tdet pa pb pc, tdet pa pd pc / tdet pa pb pc,
    tdet pa pb pd / tdet pa pb pc, ?_, ?_, ?_⟩
  · field_simp
    unfold tdet
    ring
  · field_simp
    unfold tdet
    ring
  · field_simp
    unfold tdet
    ring

theorem affine_eval (r s t α β γ : ℚ) (pa pb pc pd : Pt)
    (h1 : α + β + γ = 1)
    (hx : α * pa.1 + β * pb.1 + γ * pc.1 = pd.1)
    (hy : α * pa.2 + β * pb.2 + γ * pc.2 = pd.2) :
    r * pd.1 + s * pd.2 + t =
      α * (r * pa.1 + s * pa.2 + t) + β * (r * pb.1 + s * pb.2 + t) +
        γ * (r * pc.1 + s * pc.2 + t) := by
  rw [← hx, ← hy]
  linear_combination (-t) * h1

theorem indep_coeff_fst (qa qb qc : Pt) (hT : tdet qa qb qc ≠ 0) (a b c : ℚ)
    (h1 : a * qa.1 + b * qb.1 + c * qc.1 = 0)
    (h2 : a * qa.2 + b * qb.2 + c * qc.2 = 0)
    (h3 : a + b + c = 0) : a = 0 := by
  have key : a * tdet qa qb qc = 0 := by
    unfold tdet
    linear_combination (qb.2 - qc.2) * h1 + (qc.1 - qb.1) * h2 +
      (qb.1 * qc.2 - qc.1 * qb.2) * h3
  rcases mul_eq_zero.mp key with h | h
  · exact h
  · exact absurd h hT

theorem indep_coeffs (qa qb qc : Pt) (hT : tdet qa qb qc ≠ 0) (a b c : ℚ)
    (h1 : a * qa.1 + b * qb.1 + c * qc.1 = 0)
    (h2 : a * qa.2 + b * qb.2 + c * qc.2 = 0)
    (h3 : a + b + c = 0) : a = 0 ∧ b = 0 ∧ c = 0 := by
  refine ⟨indep_coeff_fst qa qb qc hT a b c h1 h2 h3, ?_, ?_⟩
  · refine indep_coeff_fst qb qa qc ?_ b a c (by linear_combination h1)
      (by linear_combination h2) (by linarith)
    rw [tdet_swap12]
    exact neg_ne_zero.mpr hT
  · refine indep_coeff_fst qc qb qa ?_ c b a (by linear_combination h1)
      (by linear_combination h2) (by linarith)
    rw [show tdet qc qb qa = -tdet qa qb qc by unfold tdet; ring]
    exact neg_ne_zero.mpr hT

theorem affine_vanish_fst (pa pb pc : Pt) (hT : tdet pa pb pc ≠ 0) (r s t : ℚ)
    (h1 : r * pa.1 + s * pa.2 + t = 0)
    (h2 : r * pb.1 + s * pb.2 + t = 0)
    (h3 : r * pc.1 + s * pc.2 + t = 0) : r = 0 ∧ s = 0 ∧ t = 0 := by
  have hr : r * tdet pa pb pc = 0 := by
    unfold tdet
    linear_combination (pb.2 - pc.2) * h1 + (pc.2 - pa.2) * h2 + (pa.2 - pb.2) * h3
  have hs : s * tdet pa pb pc = 0 := by
    unfold tdet
    linear_combination (pc.1 - pb.1) * h1 + (pa.1 - pc.1) * h2 + (pb.1 - pa.1) * h3
  have r0 : r = 0 := by
    rcases mul_eq_zero.mp hr with h | h
    · exact h
    · exact absurd h hT
  have s0 : s = 0 := by
    rcases mul_eq_zero.mp hs with h | h
    · exact h
    · exact absurd h hT
  have t0 : t = 0 := by
    rw [r0, s0] at h1
    linarith
  exact ⟨r0, s0, t0⟩

theorem numx_affine (v : Fin 8 → ℚ) (α β γ : ℚ) (pa pb pc pd : Pt)
    (h1 : α + β + γ = 1)
    (hx : α * pa.1 + β * pb.1 + γ * pc.1 = pd.1)
    (hy : α * pa.2 + β * pb.2 + γ * pc.2 = pd.2) :
    numx v pd = α * numx v pa + β * numx v pb + γ * numx v pc :=
  affine_eval (v 0) (v 1) (v 2) α β γ pa pb pc pd h1 hx hy

theorem numy_affine (v : Fin 8 → ℚ) (α β γ : ℚ) (pa pb pc pd : Pt)
    (h1 : α + β + γ = 1)
    (hx : α * pa.1 + β * pb.1 + γ * pc.1 = pd.1)
    (hy : α * pa.2 + β * pb.2 + γ * pc.2 = pd.2) :
    numy v pd = α * numy v pa + β * numy v pb + γ * numy v pc :=
  affine_eval (v 3) (v 4) (v 5) α β γ pa pb pc pd h1 hx hy

theorem denv_affine (v : Fin 8 → ℚ) (α β γ : ℚ) (pa pb pc pd : Pt)
    (h1 : α + β + γ = 1)
    (hx : α * pa.1 + β * pb.1 + γ * pc.1 = pd.1)
    (hy : α * pa.2 + β * pb.2 + γ * pc.2 = pd.2) :
    denv v pd = α * denv v pa + β * denv v pb + γ * denv v pc :=
  affine_eval (v 6) (v 7) 1 α β γ pa pb pc pd h1 hx hy

theorem den_two_zero_case (v : Fin 8 → ℚ) (pa pb pc pd qc qd : Pt)
    (hza : numx v pa = 0 ∧ numy v pa = 0 ∧ denv v pa = 0)
    (hzb : numx v pb = 0 ∧ numy v pb = 0 ∧ denv v pb = 0)
    (ec : EqsAt v pc qc) (ed : EqsAt v pd qd)
    (hT : tdet pa pb pd ≠ 0)
    (hDc : denv v pc ≠ 0) (hDd : denv v pd ≠ 0)
    (hq : qc ≠ qd) : False := by
  obtain ⟨α, β, γ, h1, hx, hy⟩ := affine_decomp pa pb pd pc hT
  have hNx : numx v pc = γ * numx v pd := by
    rw [numx_affine v α β γ pa pb pd pc h1 hx hy, hza.1, hzb.1]
    ring
  have hNy : numy v pc = γ * numy v pd := by
    rw [numy_affine v α β γ pa pb pd pc h1 hx hy, hza.2.1, hzb.2.1]
    ring
  have hDen : denv v pc = γ * denv v pd := by
    rw [denv_affine v α β γ pa pb pd pc h1 hx hy, hza.2.2, hzb.2.2]
    ring
  have hγ : γ ≠ 0 := by
    intro h0
    rw [h0, zero_mul] at hDen
    exact hDc hDen
  have hu : qc.1 = qd.1 := by
    have e1 : qc.1 * (γ * denv v pd) = γ * (qd.1 * denv v pd) := by
      rw [← hDen, ← ec.1, hNx, ed.1]
    have e2 : qc.1 * (γ * denv v pd) = qd.1 * (γ * denv v pd) := by
      rw [e1]
      ring
    exact mul_right_cancel₀ (mul_ne_zero hγ hDd) e2
  have hv : qc.2 = qd.2 := by
    have e1 : qc.2 * (γ * denv v pd) = γ * (qd.2 * denv v pd) := by
      rw [← hDen, ← ec.2, hNy, ed.2]
    have e2 : qc.2 * (γ * denv v pd) = qd.2 * (γ * denv v pd) := by
      rw [e1]
      ring
    exact mul_right_cancel₀ (mul_ne_zero hγ hDd) e2
  exact hq (Prod.ext_iff.mpr ⟨hu, hv⟩)

theorem den_one_zero_case (v : Fin 8 → ℚ) (p0 p1 p2 p3 q1 q2 q3 : Pt)
    (hz0 : numx v p0 = 0 ∧ numy v p0 = 0 ∧ denv v p0 = 0)
    (e1 : EqsAt v p1 q1) (e2 : EqsAt v p2 q2) (e3 : EqsAt v p3 q3)
    (hT : tdet p1 p2 p3 ≠ 0)
    (hD1 : denv v p1 ≠ 0) (hD2 : denv v p2 ≠ 0) (hD3 : denv v p3 ≠ 0)
    (htq : tdet q1 q2 q3 ≠ 0) : False := by
  obtain ⟨α, β, γ, h1, hx, hy⟩ := affine_decomp p1 p2 p3 p0 hT
  have hNx := numx_affine v α β γ p1 p2 p3 p0 h1 hx hy
  have hNy := numy_affine v α β γ p1 p2 p3 p0 h1 hx hy
  have hDen := denv_affine v α β γ p1 p2 p3 p0 h1 hx hy
  rw [hz0.1, e1.1, e2.1, e3.1] at hNx
  rw [hz0.2.1, e1.2, e2.2, e3.2] at hNy
  rw [hz0.2.2] at hDen
  have ha1 : (α * denv v p1) * q1.1 + (β * denv v p2) * q2.1 +
      (γ * denv v p3) * q3.1 = 0 := by linear_combination -hNx
  have ha2 : (α * denv v p1) * q1.2 + (β * denv v p2) * q2.2 +
      (γ * denv v p3) * q3.2 = 0 := by linear_combination -hNy
  have ha3 : (α * denv v p1) + (β * denv v p2) + (γ * denv v p3) = 0 := by
    linear_combination -hDen
  obtain ⟨hA, hB, hC⟩ := indep_coeffs q1 q2 q3 htq _ _ _
    (by linear_combination ha1) (by linear_combination ha2) ha3
  have hα : α = 0 := by
    rcases mul_eq_zero.mp hA with h | h
    · exact h
    · exact absurd h hD1
  have hβ : β = 0 := by
    rcases mul_eq_zero.mp hB with h | h
    · exact h
    · exact absurd h hD2
  have hγ : γ = 0 := by
    rcases mul_eq_zero.mp hC with h | h
    · exact h
    · exact absurd h hD3
  rw [hα, hβ, hγ] at h1
  norm_num at h1

theorem denv_ne_zero (v : Fin 8 → ℚ) (p0 p1 p2 p3 q0 q1 q2 q3 : Pt)
    (e0 : EqsAt v p0 q0) (e1 : EqsAt v p1 q1) (e2 : EqsAt v p2 q2)
    (e3 : EqsAt v p3 q3)
    (t123 : tdet p1 p2 p3 ≠ 0) (t023 : tdet p0 p2 p3 ≠ 0)
    (t013 : tdet p0 p1 p3 ≠ 0) (t012 : tdet p0 p1 p2 ≠ 0)
    (hq12 : q1 ≠ q2) (hq13 : q1 ≠ q3) (hq23 : q2 ≠ q3)
    (htq : tdet q1 q2 q3 ≠ 0) : denv v p0 ≠ 0 := by
  intro hD0
  have hzOf : ∀ p q, EqsAt v p q → denv v p = 0 →
      numx v p = 0 ∧ numy v p = 0 ∧ denv v p = 0 := by
    intro p q e hD
    exact ⟨by rw [e.1, hD, mul_zero], by rw [e.2, hD, mul_zero], hD⟩
  have hz0 := hzOf p0 q0 e0 hD0
  have vanish3 : ∀ pA pB pC : Pt, tdet pA pB pC ≠ 0 → denv v pA = 0 →
      denv v pB = 0 → denv v pC = 0 → False := by
    intro pA pB pC hT hA hB hC
    obtain ⟨-, -, habs⟩ := affine_vanish_fst pA pB pC hT (v 6) (v 7) 1
      (by rw [← denv]; exact hA) (by rw [← denv]; exact hB) (by rw [← denv]; exact hC)
    exact one_ne_zero habs
  by_cases hD1 : denv v p1 = 0
  · by_cases hD2 : denv v p2 = 0
    · exact vanish3 p0 p1 p2 t012 hD0 hD1 hD2
    · by_cases hD3 : denv v p3 = 0
      · exact vanish3 p0 p1 p3 t013 hD0 hD1 hD3
      · exact den_two_zero_case v p0 p1 p2 p3 q2 q3 hz0 (hzOf p1 q1 e1 hD1)
          e2 e3 t013 hD2 hD3 hq23
  · by_cases hD2 : denv v p2 = 0
    · by_cases hD3 : denv v p3 = 0
      · exact vanish3 p0 p2 p3 t023 hD0 hD2 hD3
      · exact den_two_zero_case v p0 p2 p1 p3 q1 q3 hz0 (hzOf p2 q2 e2 hD2)
          e1 e3 t023 hD1 hD3 hq13
    · by_cases hD3 : denv v p3 = 0
      · refine den_two_zero_case v p0 p3 p1 p2 q1 q2 hz0 (hzOf p3 q3 e3 hD3)
          e1 e2 ?_ hD1 hD2 hq12
        rw [tdet_swap23]
        exact neg_ne_zero.mpr t023
      · exact den_one_zero_case v p0 p1 p2 p3 q1 q2 q3 hz0 e1 e2 e3 t123
          hD1 hD2 hD3 htq

/-- C4: whenever the 4 source points are collinear (they all lie on a common
line a x + b y + c = 0 with (a, b) nonzero), the Homography Solver detects
the singular 8 x 8 system and signals the degenerate-geometry error
(`none`); it never returns a matrix as if it were a valid result.  (The
line coefficients give an explicit kernel vector of the system matrix, so
its determinant vanishes.) -/
theorem C4_collinear_degenerate (s0 s1 s2 s3 d0 d1 d2 d3 : Pt)
    (hcol : ∃ a b c : ℚ, (a ≠ 0 ∨ b ≠ 0) ∧
      a * s0.1 + b * s0.2 + c = 0 ∧ a * s1.1 + b * s1.2 + c = 0 ∧
      a * s2.1 + b * s2.2 + c = 0 ∧ a * s3.1 + b * s3.2 + c = 0) :
    getPerspectiveTransform s0 s1 s2 s3 d0 d1 d2 d3 = none := by
  obtain ⟨a, b, c, hab, hL0, hL1, hL2, hL3⟩ := hcol
  have hker : ∃ k, k ≠ 0 ∧ (homMat s0 s1 s2 s3 d0 d1 d2 d3).mulVec k = 0 := by
    refine ⟨![a, b, c, a, b, c, 0, 0], ?_, ?_⟩
    · intro hk
      rcases hab with ha | hb
      · exact ha (by simpa using congrFun hk 0)
      · exact hb (by simpa using congrFun hk 1)
    · have hrow : ∀ i : Fin 8,
          (homMat s0 s1 s2 s3 d0 d1 d2 d3).mulVec ![a, b, c, a, b, c, 0, 0] i =
            (![a * s0.1 + b * s0.2 + c, a * s0.1 + b * s0.2 + c,
               a * s1.1 + b * s1.2 + c, a * s1.1 + b * s1.2 + c,
               a * s2.1 + b * s2.2 + c, a * s2.1 + b * s2.2 + c,
               a * s3.1 + b * s3.2 + c, a * s3.1 + b * s3.2 + c] : Fin 8 → ℚ) i := by
        have e0 : (homMat s0 s1 s2 s3 d0 d1 d2 d3).mulVec ![a, b, c, a, b, c, 0, 0] 0 =
            a * s0.1 + b * s0.2 + c := by
          simp only [homMat, Matrix.mulVec, Matrix.dotProduct, Fin.sum_univ_eight,
            Matrix.of_apply, vec8_zero, vec8_one, vec8_two, vec8_three, vec8_four,
            vec8_five, vec8_six, vec8_seven]
          ring
        have e1 : (homMat s0 s1 s2 s3 d0 d1 d2 d3).mulVec ![a, b, c, a, b, c, 0, 0] 1 =
            a * s0.1 + b * s0.2 + c := by
          simp only [homMat, Matrix.mulVec, Matrix.dotProduct, Fin.sum_univ_eight,
            Matrix.of_apply, vec8_zero, vec8_one, vec8_two, vec8_three, vec8_four,
            vec8_five, vec8_six, vec8_seven]
          ring
        have e2 : (homMat s0 s1 s2 s3 d0 d1 d2 d3).mulVec ![a, b, c, a, b, c, 0, 0] 2 =
            a * s1.1 + b * s1.2 + c := by
          simp only [homMat, Matrix.mulVec, Matrix.dotProduct, Fin.sum_univ_eight,
            Matrix.of_apply, vec8_zero, vec8_one, vec8_two, vec8_three, vec8_four,
            vec8_five, vec8_six, vec8_seven]
          ring
        have e3 : (homMat s0 s1 s2 s3 d0 d1 d2 d3).mulVec ![a, b, c, a, b, c, 0, 0] 3 =
            a * s1.1 + b * s1.2 + c := by
          simp only [homMat, Matrix.mulVec, Matrix.dotProduct, Fin.sum_univ_eight,
            Matrix.of_apply, vec8_zero, vec8_one, vec8_two, vec8_three, vec8_four,
            vec8_five, vec8_six, vec8_seven]
          ring
        have e4 : (homMat s0 s1 s2 s3 d0 d1 d2 d3).mulVec ![a, b, c, a, b, c, 0, 0] 4 =
            a * s2.1 + b * s2.2 + c := by
          simp only [homMat, Matrix.mulVec, Matrix.dotProduct, Fin.sum_univ_eight,
            Matrix.of_apply, vec8_zero, vec8_one, vec8_two, vec8_three, vec8_four,
            vec8_five, vec8_six, vec8_seven]
          ring
        have e5 : (homMat s0 s1 s2 s3 d0 d1 d2 d3).mulVec ![a, b, c, a, b, c, 0, 0] 5 =
            a * s2.1 + b * s2.2 + c := by
          simp only [homMat, Matrix.mulVec, Matrix.dotProduct, Fin.sum_univ_eight,
            Matrix.of_apply, vec8_zero, vec8_one, vec8_two, vec8_three, vec8_four,
            vec8_five, vec8_six, vec8_seven]
          ring
        have e6 : (homMat s0 s1 s2 s3 d0 d1 d2 d3).mulVec ![a, b, c, a, b, c, 0, 0] 6 =
            a * s3.1 + b * s3.2 + c := by
          simp only [homMat, Matrix.mulVec, Matrix.dotProduct, Fin.sum_univ_eight,
            Matrix.of_apply, vec8_zero, vec8_one, vec8_two, vec8_three, vec8_four,
            vec8_five, vec8_six, vec8_seven]
          ring
        have e7 : (homMat s0 s1 s2 s3 d0 d1 d2 d3).mulVec ![a, b, c, a, b, c, 0, 0] 7 =
            a * s3.1 + b * s3.2 + c := by
          simp only [homMat, Matrix.mulVec, Matrix.dotProduct, Fin.sum_univ_eight,
            Matrix.of_apply, vec8_zero, vec8_one, vec8_two, vec8_three, vec8_four,
            vec8_five, vec8_six, vec8_seven]
          ring
        intro i
        fin_cases i
        · exact e0
        · exact e1
        · exact e2
        · exact e3
        · exact e4
        · exact e5
        · exact e6
        · exact e7
      funext i
      rw [hrow i, hL0, hL1, hL2, hL3]
      have : (![(0:ℚ), 0, 0, 0, 0, 0, 0, 0] : Fin 8 → ℚ) i = 0 := by
        fin_cases i <;> rfl
      rw [Pi.zero_apply]
      exact this
  have hdet : (homMat s0 s1 s2 s3 d0 d1 d2 d3).det = 0 := by
    apply Matrix.exists_mulVec_eq_zero_iff.mp
    obtain ⟨k, hk0, hk⟩ := hker
    exact ⟨k, hk0, hk⟩
  simp [getPerspectiveTransform, hdet]

theorem C4_collinear_degenerate_witness :
    getPerspectiveTransform ((0:ℚ), (0:ℚ)) (1, 1) (2, 2) (3, 3)
      (0, 0) (4, 0) (4, 4) (0, 4) = none :=
  C4_collinear_degenerate _ _ _ _ _ _ _ _
    ⟨1, -1, 0, Or.inl one_ne_zero, by norm_num, by norm_num, by norm_num,
      by norm_num⟩

theorem fin8_forall {P : Fin 8 → Prop} (h0 : P 0) (h1 : P 1) (h2 : P 2)
    (h3 : P 3) (h4 : P 4) (h5 : P 5) (h6 : P 6) (h7 : P 7) : ∀ i, P i := by
  intro i
  fin_cases i
  exacts [h0, h1, h2, h3, h4, h5, h6, h7]

theorem rect_corner_facts (W H : ℕ) (hW : 2 ≤ W) (hH : 2 ≤ H) :
    (((0, 0) : Pt) ≠ ((W : ℚ) - 1, 0) ∧
     ((0, 0) : Pt) ≠ ((W : ℚ) - 1, (H : ℚ) - 1) ∧
     ((0, 0) : Pt) ≠ (0, (H : ℚ) - 1) ∧
     (((W : ℚ) - 1, 0) : Pt) ≠ ((W : ℚ) - 1, (H : ℚ) - 1) ∧
     (((W : ℚ) - 1, 0) : Pt) ≠ (0, (H : ℚ) - 1) ∧
     (((W : ℚ) - 1, (H : ℚ) - 1) : Pt) ≠ (0, (H : ℚ) - 1)) ∧
    (tdet ((W : ℚ) - 1, 0) ((W : ℚ) - 1, (H : ℚ) - 1) (0, (H : ℚ) - 1) ≠ 0 ∧
     tdet (0, 0) ((W : ℚ) - 1, (H : ℚ) - 1) (0, (H : ℚ) - 1) ≠ 0 ∧
     tdet (0, 0) ((W : ℚ) - 1, 0) (0, (H : ℚ) - 1) ≠ 0 ∧
     tdet (0, 0) ((W : ℚ) - 1, 0) ((W : ℚ) - 1, (H : ℚ) - 1) ≠ 0) := by
  have haq : (1 : ℚ) ≤ (W : ℚ) - 1 := by
    have h2 : ((2 : ℕ) : ℚ) ≤ ((W : ℕ) : ℚ) := by exact_mod_cast hW
    push_cast at h2
    linarith
  have hbq : (1 : ℚ) ≤ (H : ℚ) - 1 := by
    have h2 : ((2 : ℕ) : ℚ) ≤ ((H : ℕ) : ℚ) := by exact_mod_cast hH
    push_cast at h2
    linarith
  have hane : ((W : ℚ) - 1) ≠ 0 := by linarith
  have hbne : ((H : ℚ) - 1) ≠ 0 := by linarith
  refine ⟨⟨?_, ?_, ?_, ?_, ?_, ?_⟩, ?_, ?_, ?_, ?_⟩
  · intro hEq
    exact hane (congrArg Prod.fst hEq).symm
  · intro hEq
    exact hane (congrArg Prod.fst hEq).symm
  · intro hEq
    exact hbne (congrArg Prod.snd hEq).symm
  · intro hEq
    exact hbne (congrArg Prod.snd hEq).symm
  · intro hEq
    exact hane (congrArg Prod.fst hEq)
  · intro hEq
    exact hane (congrArg Prod.fst hEq)
  · have e : tdet ((W : ℚ) - 1, 0) ((W : ℚ) - 1, (H : ℚ) - 1) (0, (H : ℚ) - 1) =
        ((W : ℚ) - 1) * ((H : ℚ) - 1) := by
      unfold tdet
      ring
    rw [e]
    exact mul_ne_zero hane hbne
  · have e : tdet (0, 0) ((W : ℚ) - 1, (H : ℚ) - 1) (0, (H : ℚ) - 1) =
        ((W : ℚ) - 1) * ((H : ℚ) - 1) := by
      unfold tdet
      ring
    rw [e]
    exact mul_ne_zero hane hbne
  · have e : tdet (0, 0) ((W : ℚ) - 1, 0) (0, (H : ℚ) - 1) =
        ((W : ℚ) - 1) * ((H : ℚ) - 1) := by
      unfold tdet
      ring
    rw [e]
    exact mul_ne_zero hane hbne
  · have e : tdet (0, 0) ((W : ℚ) - 1, 0) ((W : ℚ) - 1, (H : ℚ) - 1) =
        ((W : ℚ) - 1) * ((H : ℚ) - 1) := by
      unfold tdet
      ring
    rw [e]
    exact mul_ne_zero hane hbne

/-- C5: for every valid (non-degenerate) ordered source quadrilateral — no 3
of its corners collinear, which also forces the corners pairwise distinct —
and target size W x H with W, H ≥ 2, whenever the Homography Solver solves
its (nonsingular) system, the computed homography maps each of the 4 ordered
source corners exactly onto the corresponding destination rectangle corner
(0,0), (W-1,0), (W-1,H-1), (0,H-1), with a nonzero projective denominator at
every corner.  Exact rational arithmetic embeds the floating-point-tolerance
clause as exact equality. -/
theorem C5_homography_round_trip (s0 s1 s2 s3 : Pt) (W H : ℕ)
    (hW : 2 ≤ W) (hH : 2 ≤ H)
    (t123 : tdet s1 s2 s3 ≠ 0) (t023 : tdet s0 s2 s3 ≠ 0)
    (t013 : tdet s0 s1 s3 ≠ 0) (t012 : tdet s0 s1 s2 ≠ 0)
    (hdet : (homMat s0 s1 s2 s3 (0, 0) ((W : ℚ) - 1, 0)
        ((W : ℚ) - 1, (H : ℚ) - 1) (0, (H : ℚ) - 1)).det ≠ 0) :
    getPerspectiveTransform s0 s1 s2 s3 (0, 0) ((W : ℚ) - 1, 0)
        ((W : ℚ) - 1, (H : ℚ) - 1) (0, (H : ℚ) - 1) =
      some (rectHom s0 s1 s2 s3 W H) ∧
    (den (rectHom s0 s1 s2 s3 W H) s0 ≠ 0 ∧
      papply (rectHom s0 s1 s2 s3 W H) s0 = (0, 0)) ∧
    (den (rectHom s0 s1 s2 s3 W H) s1 ≠ 0 ∧
      papply (rectHom s0 s1 s2 s3 W H) s1 = ((W : ℚ) - 1, 0)) ∧
    (den (rectHom s0 s1 s2 s3 W H) s2 ≠ 0 ∧
      papply (rectHom s0 s1 s2 s3 W H) s2 = ((W : ℚ) - 1, (H : ℚ) - 1)) ∧
    (den (rectHom s0 s1 s2 s3 W H) s3 ≠ 0 ∧
      papply (rectHom s0 s1 s2 s3 W H) s3 = (0, (H : ℚ) - 1)) := by
  obtain ⟨⟨hq01, hq02, hq03, hq12, hq13, hq23⟩, htq123, htq023, htq013, htq012⟩ :=
    rect_corner_facts W H hW hH
  have hsolve := homMat_mulVec_solveVec s0 s1 s2 s3 (0, 0) ((W : ℚ) - 1, 0)
    ((W : ℚ) - 1, (H : ℚ) - 1) (0, (H : ℚ) - 1) hdet
  obtain ⟨e0, e1, e2, e3⟩ := homMat_mulVec_eq s0 s1 s2 s3 (0, 0) ((W : ℚ) - 1, 0)
    ((W : ℚ) - 1, (H : ℚ) - 1) (0, (H : ℚ) - 1) _ hsolve
  have hd0 : denv (solveVec s0 s1 s2 s3 (0, 0) ((W : ℚ) - 1, 0)
      ((W : ℚ) - 1, (H : ℚ) - 1) (0, (H : ℚ) - 1)) s0 ≠ 0 :=
    denv_ne_zero _ s0 s1 s2 s3 _ _ _ _ e0 e1 e2 e3 t123 t023 t013 t012
      hq12 hq13 hq23 htq123
  have hd1 : denv (solveVec s0 s1 s2 s3 (0, 0) ((W : ℚ) - 1, 0)
      ((W : ℚ) - 1, (H : ℚ) - 1) (0, (H : ℚ) - 1)) s1 ≠ 0 := by
    refine denv_ne_zero _ s1 s0 s2 s3 _ _ _ _ e1 e0 e2 e3 ?_ ?_ ?_ ?_
      hq02 hq03 hq23 htq023
    · exact t023
    · exact t123
    · rw [tdet_swap12]
      exact neg_ne_zero.mpr t013
    · rw [tdet_swap12]
      exact neg_ne_zero.mpr t012
  have hd2 : denv (solveVec s0 s1 s2 s3 (0, 0) ((W : ℚ) - 1, 0)
      ((W : ℚ) - 1, (H : ℚ) - 1) (0, (H : ℚ) - 1)) s2 ≠ 0 := by
    refine denv_ne_zero _ s2 s0 s1 s3 _ _ _ _ e2 e0 e1 e3 ?_ ?_ ?_ ?_
      hq01 hq03 hq13 htq013
    · exact t013
    · rw [tdet_swap12]
      exact neg_ne_zero.mpr t123
    · rw [tdet_swap12]
      exact neg_ne_zero.mpr t023
    · rw [tdet_rot, tdet_rot]
      exact t012
  have hd3 : denv (solveVec s0 s1 s2 s3 (0, 0) ((W : ℚ) - 1, 0)
      ((W : ℚ) - 1, (H : ℚ) - 1) (0, (H : ℚ) - 1)) s3 ≠ 0 := by
    refine denv_ne_zero _ s3 s0 s1 s2 _ _ _ _ e3 e0 e1 e2 ?_ ?_ ?_ ?_
      hq01 hq02 hq12 htq012
    · exact t012
    · rw [tdet_rot, tdet_rot]
      exact t123
    · rw [tdet_rot, tdet_rot]
      exact t023
    · rw [tdet_rot, tdet_rot]
      exact t013
  have hmap : ∀ (p q : Pt),
      EqsAt (solveVec s0 s1 s2 s3 (0, 0) ((W : ℚ) - 1, 0)
        ((W : ℚ) - 1, (H : ℚ) - 1) (0, (H : ℚ) - 1)) p q →
      denv (solveVec s0 s1 s2 s3 (0, 0) ((W : ℚ) - 1, 0)
        ((W : ℚ) - 1, (H : ℚ) - 1) (0, (H : ℚ) - 1)) p ≠ 0 →
      papply (rectHom s0 s1 s2 s3 W H) p = q := by
    intro p q e hD
    have h1 : numx (solveVec s0 s1 s2 s3 (0, 0) ((W : ℚ) - 1, 0)
        ((W : ℚ) - 1, (H : ℚ) - 1) (0, (H : ℚ) - 1)) p /
        denv (solveVec s0 s1 s2 s3 (0, 0) ((W : ℚ) - 1, 0)
        ((W : ℚ) - 1, (H : ℚ) - 1) (0, (H : ℚ) - 1)) p = q.1 := by
      rw [e.1]
      exact mul_div_cancel_right₀ q.1 hD
    have h2 : numy (solveVec s0 s1 s2 s3 (0, 0) ((W : ℚ) - 1, 0)
        ((W : ℚ) - 1, (H : ℚ) - 1) (0, (H : ℚ) - 1)) p /
        denv (solveVec s0 s1 s2 s3 (0, 0) ((W : ℚ) - 1, 0)
        ((W : ℚ) - 1, (H : ℚ) - 1) (0, (H : ℚ) - 1)) p = q.2 := by
      rw [e.2]
      exact mul_div_cancel_right₀ q.2 hD
    have hpap : papply (rectHom s0 s1 s2 s3 W H) p =
        (numx (solveVec s0 s1 s2 s3 (0, 0) ((W : ℚ) - 1, 0)
          ((W : ℚ) - 1, (H : ℚ) - 1) (0, (H : ℚ) - 1)) p /
         denv (solveVec s0 s1 s2 s3 (0, 0) ((W : ℚ) - 1, 0)
          ((W : ℚ) - 1, (H : ℚ) - 1) (0, (H : ℚ) - 1)) p,
         numy (solveVec s0 s1 s2 s3 (0, 0) ((W : ℚ) - 1, 0)
          ((W : ℚ) - 1, (H : ℚ) - 1) (0, (H : ℚ) - 1)) p /
         denv (solveVec s0 s1 s2 s3 (0, 0) ((W : ℚ) - 1, 0)
          ((W : ℚ) - 1, (H : ℚ) - 1) (0, (H : ℚ) - 1)) p) := rfl
    rw [hpap, h1, h2]
  refine ⟨?_, ⟨hd0, hmap s0 _ e0 hd0⟩, ⟨hd1, hmap s1 _ e1 hd1⟩,
    ⟨hd2, hmap s2 _ e2 hd2⟩, ⟨hd3, hmap s3 _ e3 hd3⟩⟩
  rw [getPerspectiveTransform, if_neg hdet]
  rfl

set_option maxHeartbeats 2000000 in
theorem C5_homography_round_trip_witness :
    getPerspectiveTransform ((0:ℚ), (0:ℚ)) (2, 0) (2, 2) (0, 2) (0, 0)
        (((3:ℕ) : ℚ) - 1, 0) (((3:ℕ) : ℚ) - 1, ((3:ℕ) : ℚ) - 1)
        (0, ((3:ℕ) : ℚ) - 1) =
      some (rectHom ((0:ℚ), (0:ℚ)) (2, 0) (2, 2) (0, 2) 3 3) ∧
    (den (rectHom ((0:ℚ), (0:ℚ)) (2, 0) (2, 2) (0, 2) 3 3) (0, 0) ≠ 0 ∧
      papply (rectHom ((0:ℚ), (0:ℚ)) (2, 0) (2, 2) (0, 2) 3 3) (0, 0) = (0, 0)) ∧
    (den (rectHom ((0:ℚ), (0:ℚ)) (2, 0) (2, 2) (0, 2) 3 3) (2, 0) ≠ 0 ∧
      papply (rectHom ((0:ℚ), (0:ℚ)) (2, 0) (2, 2) (0, 2) 3 3) (2, 0) =
        (((3:ℕ) : ℚ) - 1, 0)) ∧
    (den (rectHom ((0:ℚ), (0:ℚ)) (2, 0) (2, 2) (0, 2) 3 3) (2, 2) ≠ 0 ∧
      papply (rectHom ((0:ℚ), (0:ℚ)) (2, 0) (2, 2) (0, 2) 3 3) (2, 2) =
        (((3:ℕ) : ℚ) - 1, ((3:ℕ) : ℚ) - 1)) ∧
    (den (rectHom ((0:ℚ), (0:ℚ)) (2, 0) (2, 2) (0, 2) 3 3) (0, 2) ≠ 0 ∧
      papply (rectHom ((0:ℚ), (0:ℚ)) (2, 0) (2, 2) (0, 2) 3 3) (0, 2) =
        (0, ((3:ℕ) : ℚ) - 1)) := by
  have h31 : (((3:ℕ) : ℚ) - 1) = 2 := by norm_num
  have hdet : (homMat ((0:ℚ), (0:ℚ)) (2, 0) (2, 2) (0, 2) (0, 0)
      (((3:ℕ) : ℚ) - 1, 0) (((3:ℕ) : ℚ) - 1, ((3:ℕ) : ℚ) - 1)
      (0, ((3:ℕ) : ℚ) - 1)).det ≠ 0 := by
    rw [h31]
    have h1 : homMat ((0:ℚ), (0:ℚ)) (2, 0) (2, 2) (0, 2) (0, 0) (2, 0) (2, 2) (0, 2) *
        Matrix.of
        ![![-1/2, -1/2, 1/2, 1/2, 0, -1/2, 0, 1/2],
          ![-1/2, 0, 0, 0, 0, 0, 1/2, 0],
          ![1, 0, 0, 0, 0, 0, 0, 0],
          ![0, -1/2, 0, 1/2, 0, 0, 0, 0],
          ![-1/2, -1/2, 1/2, 0, -1/2, 0, 1/2, 1/2],
          ![0, 1, 0, 0, 0, 0, 0, 0],
          ![0, -1/4, 0, 1/4, 0, -1/4, 0, 1/4],
          ![-1/4, 0, 1/4, 0, -1/4, 0, 1/4, 0]] =
        Matrix.of
        ![![1, 0, 0, 0, 0, 0, 0, 0],
          ![0, 1, 0, 0, 0, 0, 0, 0],
          ![0, 0, 1, 0, 0, 0, 0, 0],
          ![0, 0, 0, 1, 0, 0, 0, 0],
          ![0, 0, 0, 0, 1, 0, 0, 0],
          ![0, 0, 0, 0, 0, 1, 0, 0],
          ![0, 0, 0, 0, 0, 0, 1, 0],
          ![0, 0, 0, 0, 0, 0, 0, 1]] := by
      apply Matrix.ext
      refine fin8_forall ?_ ?_ ?_ ?_ ?_ ?_ ?_ ?_ <;>
        refine fin8_forall ?_ ?_ ?_ ?_ ?_ ?_ ?_ ?_ <;>
        · simp only [homMat, Matrix.mul_apply, Fin.sum_univ_eight, Matrix.of_apply,
            Matrix.cons_val_zero, Matrix.cons_val_one, Matrix.head_cons,
            vec8_zero, vec8_one, vec8_two, vec8_three, vec8_four, vec8_five,
            vec8_six, vec8_seven]
          norm_num
    have h2 : (Matrix.of
        ![![1, 0, 0, 0, 0, 0, 0, 0],
          ![0, 1, 0, 0, 0, 0, 0, 0],
          ![0, 0, 1, 0, 0, 0, 0, 0],
          ![0, 0, 0, 1, 0, 0, 0, 0],
          ![0, 0, 0, 0, 1, 0, 0, 0],
          ![0, 0, 0, 0, 0, 1, 0, 0],
          ![0, 0, 0, 0, 0, 0, 1, 0],
          ![0, 0, 0, 0, 0, 0, 0, 1]] : Matrix (Fin 8) (Fin 8) ℚ) = 1 := by decide
    exact Matrix.det_ne_zero_of_right_inverse (h1.trans h2)
  exact C5_homography_round_trip (0, 0) (2, 0) (2, 2) (0, 2) 3 3 (by norm_num)
    (by norm_num) (by norm_num [tdet]) (by norm_num [tdet]) (by norm_num [tdet])
    (by norm_num [tdet]) hdet

/-- C9: for every destination pixel (u, v) whose inverse-mapped source
coordinate falls outside the source raster bounds, the resampler output
equals the fixed background value 0 — and it does so for every pixel data
whatsoever, so no out-of-bounds read influences the result and the source
coordinate is neither wrapped nor clamped to the border (either policy would
make the output depend on the data). -/
theorem C9_out_of_bounds_background (w h : ℕ) (f : ℤ → ℤ → ℚ)
    (Hinv : Matrix (Fin 3) (Fin 3) ℚ) (u v : ℚ)
    (hd : Hinv 2 0 * u + Hinv 2 1 * v + Hinv 2 2 ≠ 0)
    (hout : ¬(0 ≤ (Hinv 0 0 * u + Hinv 0 1 * v + Hinv 0 2) /
            (Hinv 2 0 * u + Hinv 2 1 * v + Hinv 2 2) ∧
          (Hinv 0 0 * u + Hinv 0 1 * v + Hinv 0 2) /
            (Hinv 2 0 * u + Hinv 2 1 * v + Hinv 2 2) ≤ (w : ℚ) - 1 ∧
          0 ≤ (Hinv 1 0 * u + Hinv 1 1 * v + Hinv 1 2) /
            (Hinv 2 0 * u + Hinv 2 1 * v + Hinv 2 2) ∧
          (Hinv 1 0 * u + Hinv 1 1 * v + Hinv 1 2) /
            (Hinv 2 0 * u + Hinv 2 1 * v + Hinv 2 2) ≤ (h : ℚ) - 1)) :
    warpPixel ⟨w, h, f⟩ Hinv u v = 0 := by
  rw [warpPixel, if_neg hd, if_neg hout]

theorem C9_out_of_bounds_background_witness :
    warpPixel ⟨2, 2, fun _ _ => (7 : ℚ)⟩
      (Matrix.of ![![1, 0, 0], ![0, 1, 0], ![0, 0, 1]]) 5 0 = 0 := by
  refine C9_out_of_bounds_background 2 2 (fun _ _ => (7 : ℚ))
    (Matrix.of ![![1, 0, 0], ![0, 1, 0], ![0, 0, 1]]) 5 0 ?_ ?_
  · norm_num [Matrix.cons_val_zero, Matrix.cons_val_one, Matrix.head_cons,
      Matrix.cons_val_two, Matrix.vecHead, Matrix.vecTail]
  · norm_num [Matrix.cons_val_zero, Matrix.cons_val_one, Matrix.head_cons,
      Matrix.cons_val_two, Matrix.vecHead, Matrix.vecTail]

end DocScan
